import Mathlib

/-!
Verification of the Alonso-At-Bats GIF pipeline core.

Shallow embedding of:
- the cross-source matcher in
  `baseball_savant_gif_integration.py : get_play_animation_url` (lines 159-211),
- the transcoder in
  `baseball_savant_gif_integration.py : download_and_convert_to_gif` (lines 229-286),
- the follow-up scheduler in
  `alonso_tracker.py : process_gif_queue` (lines 725-810), and
- the detection / enqueue path in
  `alonso_tracker.py : check_alonso_at_bats` and `post_tweet_with_gif_followup`.

External effects (HTTP responses, ffmpeg exits, wall-clock time, tweet posting)
are passed in explicitly as oracle data; machine integers are modelled as `Nat`
(all quantities involved are non-negative counts, sizes, and second counters).
-/

namespace Alonso

/-! ### String primitives mirroring the Python operations used by the source -/

/-- Character-list prefix test (`List.isPrefixOf` written out explicitly). -/
def charsPre : List Char → List Char → Bool
  | [], _ => true
  | _ :: _, [] => false
  | a :: p, b :: s => a == b && charsPre p s

/-- Character-list contiguous-substring test; `charsIn p s` holds iff `p`
occurs contiguously in `s`.  Mirrors Python `p in s` on strings, including
the convention that the empty needle occurs in every string. -/
def charsIn : List Char → List Char → Bool
  | p, [] => p.isEmpty
  | p, b :: s => charsPre p (b :: s) || charsIn p s

/-- Python `needle in hay` on strings. -/
def strIn (needle hay : String) : Bool :=
  charsIn needle.data hay.data

/-- Python `s.lower()` (character-wise lower-casing; all strings involved are
ASCII). -/
def lowerStr (s : String) : String :=
  ⟨s.data.map Char.toLower⟩

/-- Python `s.replace(' ', '')`: removing every space character. -/
def stripSpaces (s : String) : String :=
  ⟨s.data.filter (fun c => c != ' ')⟩

/-! ### Matcher data model

`PlayTarget` is the slice of `mlb_play_data` read by `get_play_animation_url`:
`result.event`, `about.inning`; `batterName` carries `matchup.batter.fullName`,
which the spec's matcher contract refers to (the source code of
`get_play_animation_url` itself never reads it).

`SavantPlay` is one row of `gf_data['team_home']/['team_away']` with the keys
the matcher reads: `events`, `des`, `inning`, `batter_name`, `play_id`
(possibly absent), `pitch_call`, `call`. -/

structure PlayTarget where
  event : String
  inning : Nat
  batterName : String
deriving DecidableEq

structure SavantPlay where
  events : String
  des : String
  inning : Nat
  batterName : String
  playId : Option String
  pitchCall : String
  call : String
deriving DecidableEq

/-- Python truthiness of `play.get('play_id')`: present and non-empty. -/
def truthyId : Option String → Bool
  | none => false
  | some s => s != ""

/-- The score the source assigns to a candidate row (the `score` accumulation
at lines 179-197): +1000 if `pitch_call == 'hit_into_play' or call == 'X'`,
+100 if the lowered target event occurs in the lowered `des` (directly or with
spaces removed from both), +50 if lowered target event and lowered `events`
contain one another in either direction, +25 if `'alonso'` occurs in the
lowered batter name. -/
def matchScore (t : PlayTarget) (c : SavantPlay) : Nat :=
  (if c.pitchCall == "hit_into_play" || c.call == "X" then 1000 else 0)
  + (if strIn (lowerStr t.event) (lowerStr c.des)
        || strIn (stripSpaces (lowerStr t.event)) (stripSpaces (lowerStr c.des))
      then 100 else 0)
  + (if strIn (lowerStr t.event) (lowerStr c.events)
        || strIn (lowerStr c.events) (lowerStr t.event)
      then 50 else 0)
  + (if strIn "alonso" (lowerStr c.batterName) then 25 else 0)

/-- The filter the source applies before scoring (lines 175-177): same inning,
truthy `play_id`, and `'alonso' in play.get('batter_name','').lower()`. -/
def survives (t : PlayTarget) (c : SavantPlay) : Bool :=
  c.inning == t.inning && truthyId c.playId
    && strIn "alonso" (lowerStr c.batterName)

/-- An element of `best_matches`: `(score, play_uuid, play)`. -/
abbrev MatchEntry := Nat × String × SavantPlay

/-- The `best_matches` list built by the loop at lines 167-200, in encounter
order. -/
def buildMatches (t : PlayTarget) : List SavantPlay → List MatchEntry
  | [] => []
  | c :: rest =>
    if c.inning == t.inning && truthyId c.playId then
      if strIn "alonso" (lowerStr c.batterName) then
        (matchScore t c, (c.playId.getD ""), c) :: buildMatches t rest
      else
        buildMatches t rest
    else
      buildMatches t rest

/-- Comparison used by `best_matches.sort(key=lambda x: x[0], reverse=True)`:
entry `a` sorts before entry `b` when `a`'s score is at least `b`'s. -/
def scoreGe (a b : MatchEntry) : Prop := b.1 ≤ a.1

instance : DecidableRel scoreGe :=
  fun a b => inferInstanceAs (Decidable (b.1 ≤ a.1))

/-- Python's `list.sort` is stable, and with `reverse=True` equal keys keep
their original relative order; insertion sort inserting `a` before the first
`b` with `b.1 ≤ a.1` has exactly that behavior. -/
def sortEntries (l : List MatchEntry) : List MatchEntry :=
  List.insertionSort scoreGe l

/-- `best_matches[0]` after the sort (lines 202-206); `none` when
`best_matches` is empty. -/
def bestEntry (t : PlayTarget) (cs : List SavantPlay) : Option MatchEntry :=
  (sortEntries (buildMatches t cs)).head?

/-- `target_play_uuid` as returned by the matching portion of
`get_play_animation_url`: the uuid of the best entry, or `none` when no
candidate survived (the `if not target_play_uuid: return None` guard also
drops an empty-string uuid). -/
def bestMatchUuid (t : PlayTarget) (cs : List SavantPlay) : Option String :=
  match bestEntry t cs with
  | none => none
  | some e => if e.2.1 = "" then none else some e.2.1

/-- First maximum of `a :: l`: the earliest entry whose score is maximal
(the element Python's stable descending sort puts first). -/
def firstMaxEntry (a : MatchEntry) : List MatchEntry → MatchEntry
  | [] => a
  | b :: l => if (firstMaxEntry b l).1 ≤ a.1 then a else firstMaxEntry b l

/-- First maximum of an entry list, `none` on the empty list. -/
def firstMax : List MatchEntry → Option MatchEntry
  | [] => none
  | a :: l => some (firstMaxEntry a l)

/-! ### Matcher lemmas -/

lemma head_orderedInsert_cons (a b : MatchEntry) (t : List MatchEntry) :
    (List.orderedInsert scoreGe a (b :: t)).head? =
      if b.1 ≤ a.1 then some a else some b := by
  simp only [List.orderedInsert]
  by_cases h : b.1 ≤ a.1
  · rw [if_pos (show scoreGe a b from h), if_pos h]
    rfl
  · rw [if_neg (show ¬ scoreGe a b from h), if_neg h]
    rfl

lemma head_sortEntries (l : List MatchEntry) :
    (sortEntries l).head? = firstMax l := by
  induction l with
  | nil => rfl
  | cons a t ih =>
    show (List.orderedInsert scoreGe a (sortEntries t)).head? = _
    cases ht : sortEntries t with
    | nil =>
      have ht' : t = [] := by
        have := (List.perm_insertionSort scoreGe t).symm
        rw [show List.insertionSort scoreGe t = sortEntries t from rfl, ht] at this
        exact List.Perm.eq_nil this
      subst ht'
      rfl
    | cons b u =>
      have hb : firstMax t = some b := by
        rw [← ih, ht]
        rfl
      cases t with
      | nil => exact absurd hb (by simp [firstMax])
      | cons a' t' =>
        have hb' : firstMaxEntry a' t' = b := by
          simpa [firstMax] using hb
        rw [head_orderedInsert_cons]
        simp only [firstMax, firstMaxEntry, hb']
        by_cases hc : b.1 ≤ a.1
        · rw [if_pos hc, if_pos hc]
        · rw [if_neg hc, if_neg hc]

lemma firstMaxEntry_spec (a : MatchEntry) (l : List MatchEntry) :
    (∀ x ∈ a :: l, x.1 ≤ (firstMaxEntry a l).1) ∧
      ∃ l1 l2, a :: l = l1 ++ firstMaxEntry a l :: l2 ∧
        ∀ x ∈ l1, x.1 < (firstMaxEntry a l).1 := by
  induction l generalizing a with
  | nil =>
    exact ⟨by simp [firstMaxEntry], [], [], by simp [firstMaxEntry], by simp⟩
  | cons b t ih =>
    obtain ⟨hmax, l1, l2, hsplit, hlt⟩ := ih b
    simp only [firstMaxEntry]
    by_cases hle : (firstMaxEntry b t).1 ≤ a.1
    · rw [if_pos hle]
      refine ⟨?_, [], b :: t, by simp, by simp⟩
      intro x hx
      rcases List.mem_cons.mp hx with hx | hx
      · subst hx; exact le_refl _
      · exact le_trans (hmax x hx) hle
    · rw [if_neg hle]
      refine ⟨?_, a :: l1, l2, by rw [List.cons_append, ← hsplit], ?_⟩
      · intro x hx
        rcases List.mem_cons.mp hx with hx | hx
        · subst hx; exact le_of_lt (Nat.lt_of_not_le hle)
        · exact hmax x hx
      · intro x hx
        rcases List.mem_cons.mp hx with hx | hx
        · subst hx; exact Nat.lt_of_not_le hle
        · exact hlt x hx

lemma firstMax_spec {l : List MatchEntry} {m : MatchEntry}
    (h : firstMax l = some m) :
    (∀ x ∈ l, x.1 ≤ m.1) ∧
      ∃ l1 l2, l = l1 ++ m :: l2 ∧ ∀ x ∈ l1, x.1 < m.1 := by
  cases l with
  | nil => exact absurd h (by simp [firstMax])
  | cons a t =>
    have hm : firstMaxEntry a t = m := by simpa [firstMax] using h
    have := firstMaxEntry_spec a t
    rw [hm] at this
    exact this

lemma buildMatches_eq_filter_map (t : PlayTarget) (cs : List SavantPlay) :
    buildMatches t cs =
      (cs.filter (fun c => survives t c)).map
        (fun c => (matchScore t c, c.playId.getD "", c)) := by
  induction cs with
  | nil => rfl
  | cons c rest ih =>
    by_cases h1 : (c.inning == t.inning && truthyId c.playId) = true
    · by_cases h2 : strIn "alonso" (lowerStr c.batterName) = true
      · have hs : survives t c = true := by simp [survives, h1, h2]
        simp [buildMatches, h1, h2, hs, ih]
      · have h2' : strIn "alonso" (lowerStr c.batterName) = false :=
          Bool.eq_false_iff.mpr h2
        have hs : survives t c = false := by simp [survives, h2']
        simp [buildMatches, h1, h2', hs, ih]
    · have h1' : (c.inning == t.inning && truthyId c.playId) = false :=
        Bool.eq_false_iff.mpr h1
      have hs : survives t c = false := by simp [survives, h1']
      simp [buildMatches, h1', hs, ih]

lemma buildMatches_mem {t : PlayTarget} {cs : List SavantPlay}
    {e : MatchEntry} (h : e ∈ buildMatches t cs) :
    ∃ c ∈ cs, e = (matchScore t c, c.playId.getD "", c) ∧
      survives t c = true := by
  induction cs with
  | nil => exact absurd h (by simp [buildMatches])
  | cons c rest ih =>
    simp only [buildMatches] at h
    by_cases h1 : (c.inning == t.inning && truthyId c.playId) = true
    · rw [if_pos h1] at h
      by_cases h2 : strIn "alonso" (lowerStr c.batterName) = true
      · rw [if_pos h2] at h
        rcases List.mem_cons.mp h with he | he
        · refine ⟨c, by simp, he, ?_⟩
          simp only [survives, Bool.and_eq_true] at h1 ⊢
          exact ⟨h1, h2⟩
        · obtain ⟨c', hc', he', hs'⟩ := ih he
          exact ⟨c', by simp [hc'], he', hs'⟩
      · rw [if_neg h2] at h
        obtain ⟨c', hc', he', hs'⟩ := ih h
        exact ⟨c', by simp [hc'], he', hs'⟩
    · rw [if_neg h1] at h
      obtain ⟨c', hc', he', hs'⟩ := ih h
      exact ⟨c', by simp [hc'], he', hs'⟩

/-! ### Spec-worded matcher definitions (for comparison with the source)

These two definitions follow the wording of the specification's matcher
contract, not the source: discard on differing inning or on failure of a
case-insensitive bidirectional substring test between the candidate's batter
name and the play's batter name; score +1000 for the contact flag, +100 when
the candidate's event text contains or is contained by the play's event text
(lower-cased, whitespace-normalized), +50 when the candidate's structured
event field equals the play's event classification (string-normalized), and
+25 for the confirmed batter-name match. -/

def claimSurvives (t : PlayTarget) (c : SavantPlay) : Bool :=
  c.inning == t.inning
    && (strIn (lowerStr c.batterName) (lowerStr t.batterName)
        || strIn (lowerStr t.batterName) (lowerStr c.batterName))

def claimScore (t : PlayTarget) (c : SavantPlay) : Nat :=
  (if c.pitchCall == "hit_into_play" || c.call == "X" then 1000 else 0)
  + (if strIn (stripSpaces (lowerStr c.des)) (stripSpaces (lowerStr t.event))
        || strIn (stripSpaces (lowerStr t.event)) (stripSpaces (lowerStr c.des))
      then 100 else 0)
  + (if stripSpaces (lowerStr c.events) == stripSpaces (lowerStr t.event)
      then 50 else 0)
  + (if strIn (lowerStr c.batterName) (lowerStr t.batterName)
        || strIn (lowerStr t.batterName) (lowerStr c.batterName)
      then 25 else 0)

/-! ### Concrete matcher inputs -/

/-- Play record of spec Scenario A: inning 6 home run by Alonso. -/
def tgtA : PlayTarget := ⟨"Home Run", 6, "Alonso"⟩

/-- Scenario A first candidate: no contact flag, event `field_out`. -/
def cA1 : SavantPlay := ⟨"field_out", "field_out", 6, "Alonso", some "u1", "", ""⟩

/-- Scenario A second candidate: contact flag set, event `home run`. -/
def cA2 : SavantPlay :=
  ⟨"home run", "home run", 6, "Alonso", some "u2", "hit_into_play", ""⟩

/-- A play record used for counterexamples: inning 6 home run, batter
`Pete Alonso`. -/
def tgtB : PlayTarget := ⟨"Home Run", 6, "Pete Alonso"⟩

/-- Candidate whose `des` text (`run`) is contained in the play's event text
(`home run`) without containing it, and whose `events` field is a bidirectional
substring match without being equal to anything but the play's event. -/
def cB : SavantPlay := ⟨"home run", "run", 6, "Pete Alonso", some "u1", "", ""⟩

/-- Candidate whose batter name `Pete` is a substring of the play's batter
name `Pete Alonso` (so the spec's bidirectional test keeps it) but does not
contain the literal `alonso` (so the source discards it). -/
def cC : SavantPlay := ⟨"home run", "home run", 6, "Pete", some "u3", "hit_into_play", ""⟩

/-- Candidate identical to `cA2` except that it carries no `play_id`. -/
def cD : SavantPlay := ⟨"home run", "home run", 6, "Alonso", none, "hit_into_play", ""⟩

/-! ### Claim C1 -/

/-- C1 counterexample.  The claim's scoring/filter rules disagree with the
source on concrete inputs: (i) for `cB` the source stores score 75 in
`best_matches` (no +100: the one-directional test `target_event in des` fails
for `des = "run"`; +50 via bidirectional substring on `events`), while the
claimed rules yield 175 (+100 since `"run"` is contained by `"home run"`,
+50 since the events field equals the play event); (ii) `cC` passes the
claim's bidirectional batter test yet the source's hardcoded
`'alonso' in batter_name.lower()` filter discards it, leaving `best_matches`
empty. -/
theorem matcher_scoring_counterexample :
    (buildMatches tgtB [cB] = [(75, "u1", cB)] ∧ claimScore tgtB cB = 175) ∧
      (buildMatches tgtB [cC] = [] ∧ claimSurvives tgtB cC = true) := by
  constructor
  · exact ⟨by decide, by decide⟩
  · exact ⟨by decide, by decide⟩

/-- C1 (amended): the matcher keeps exactly the candidates whose inning equals
the play's inning, whose `play_id` is present and non-empty, and whose
lower-cased batter name contains the literal `"alonso"` (the play's own batter
name is never consulted); each kept candidate is stored with the additive
score: +1000 if `pitch_call = "hit_into_play"` or `call = "X"`, +100 if the
play's lower-cased event text occurs inside the candidate's lower-cased
description (directly or after removing spaces; one direction only), +50 if
the play's event text and the candidate's `events` field contain one another
in either direction (substring, not equality), and +25 unconditionally for the
kept candidates (the `'alonso'` test is re-checked and always true for them). -/
theorem matcher_filter_and_scores (t : PlayTarget) (cs : List SavantPlay) :
    buildMatches t cs =
      (cs.filter (fun c => survives t c)).map
        (fun c => (matchScore t c, c.playId.getD "", c)) ∧
    (∀ c : SavantPlay, survives t c = true →
      (survives t c =
        (c.inning == t.inning && truthyId c.playId
          && strIn "alonso" (lowerStr c.batterName))) ∧
      matchScore t c =
        (if c.pitchCall == "hit_into_play" || c.call == "X" then 1000 else 0)
        + (if strIn (lowerStr t.event) (lowerStr c.des)
              || strIn (stripSpaces (lowerStr t.event)) (stripSpaces (lowerStr c.des))
            then 100 else 0)
        + (if strIn (lowerStr t.event) (lowerStr c.events)
              || strIn (lowerStr c.events) (lowerStr t.event)
            then 50 else 0)
        + 25) := by
  refine ⟨buildMatches_eq_filter_map t cs, ?_⟩
  intro c hc
  refine ⟨rfl, ?_⟩
  have halonso : strIn "alonso" (lowerStr c.batterName) = true := by
    simp only [survives, Bool.and_eq_true] at hc
    exact hc.2
  simp only [matchScore, halonso, if_true]

/-! ### Claim C2 -/

/-- C2: on a non-empty list of surviving candidates the matcher returns the
entry Python's stable descending sort puts first, which is in the built list,
score-maximal there, and strictly outscores every entry encountered before it
(ties are therefore broken in favor of the first-encountered candidate); and
on Scenario A's two-candidate list the matcher selects the second candidate's
uuid. -/
theorem matcher_returns_first_highest :
    (∀ (t : PlayTarget) (cs : List SavantPlay),
      buildMatches t cs ≠ [] →
        ∃ e : MatchEntry, bestEntry t cs = some e ∧
          e ∈ buildMatches t cs ∧
          (∀ x ∈ buildMatches t cs, x.1 ≤ e.1) ∧
          ∃ l1 l2, buildMatches t cs = l1 ++ e :: l2 ∧
            ∀ x ∈ l1, x.1 < e.1) ∧
    bestMatchUuid tgtA [cA1, cA2] = some "u2" := by
  refine ⟨?_, by decide⟩
  intro t cs h
  rcases hl : buildMatches t cs with _ | ⟨a, rest⟩
  · exact absurd hl h
  · refine ⟨firstMaxEntry a rest, ?_, ?_, (firstMaxEntry_spec a rest).1,
      (firstMaxEntry_spec a rest).2⟩
    · show (sortEntries (buildMatches t cs)).head? = _
      rw [hl, head_sortEntries]
      rfl
    · obtain ⟨l1, l2, hsplit, _⟩ := (firstMaxEntry_spec a rest).2
      rw [hsplit]
      exact List.mem_append.mpr (Or.inr (by simp))

/-- Witness for C2, instantiated at Scenario A's inputs. -/
theorem matcher_returns_first_highest_witness :
    ∃ e : MatchEntry, bestEntry tgtA [cA1, cA2] = some e ∧
      e ∈ buildMatches tgtA [cA1, cA2] ∧
      (∀ x ∈ buildMatches tgtA [cA1, cA2], x.1 ≤ e.1) ∧
      ∃ l1 l2, buildMatches tgtA [cA1, cA2] = l1 ++ e :: l2 ∧
        ∀ x ∈ l1, x.1 < e.1 :=
  matcher_returns_first_highest.1 tgtA [cA1, cA2] (by decide)

/-! ### Claim C10 -/

/-- C10: the matcher never returns a missing or empty play uuid — a returned
uuid is non-empty and is the `play_id` of one of the supplied candidates — and
when every candidate that matches on inning and batter lacks a truthy
`play_id`, the matcher returns `none`. -/
theorem matcher_requires_uuid (t : PlayTarget) (cs : List SavantPlay) :
    (∀ u, bestMatchUuid t cs = some u → u ≠ "" ∧ ∃ c ∈ cs, c.playId = some u) ∧
    ((∀ c ∈ cs, (c.inning == t.inning) = true →
        strIn "alonso" (lowerStr c.batterName) = true →
        truthyId c.playId = false) →
      bestMatchUuid t cs = none) := by
  refine ⟨?_, ?_⟩
  · intro u hu
    rcases hb : bestEntry t cs with _ | e
    · rw [bestMatchUuid, hb] at hu
      exact absurd hu (by simp)
    · have hu0 : (if e.2.1 = "" then (none : Option String) else some e.2.1)
          = some u := by
        rw [bestMatchUuid, hb] at hu
        exact hu
      by_cases he : e.2.1 = ""
      · rw [if_pos he] at hu0
        exact absurd hu0 (by simp)
      · rw [if_neg he] at hu0
        have hu' : e.2.1 = u := by simpa using hu0
        have hmem : e ∈ buildMatches t cs := by
          have h1 : e ∈ sortEntries (buildMatches t cs) :=
            List.mem_of_mem_head? hb
          exact (List.perm_insertionSort scoreGe (buildMatches t cs)).mem_iff.mp h1
        obtain ⟨c, hc, hec, hsc⟩ := buildMatches_mem hmem
        refine ⟨hu' ▸ he, c, hc, ?_⟩
        have htr : truthyId c.playId = true := by
          simp only [survives, Bool.and_eq_true] at hsc
          exact hsc.1.2
        cases hid : c.playId with
        | none => rw [hid] at htr; exact absurd htr (by simp [truthyId])
        | some s =>
          have hs' : e.2.1 = s := by rw [hec, hid]; rfl
          rw [← hu', hs']
  · intro hall
    have hempty : buildMatches t cs = [] := by
      rw [buildMatches_eq_filter_map]
      have hf : cs.filter (fun c => survives t c) = [] := by
        rw [List.filter_eq_nil_iff]
        intro c hc hs
        simp only [survives, Bool.and_eq_true] at hs
        have hfalse := hall c hc hs.1.1 hs.2
        rw [hfalse] at hs
        exact absurd hs.1.2 (by simp)
      rw [hf]
      rfl
    rw [bestMatchUuid, bestEntry, hempty]
    rfl

/-- Witness for C10: a contact-flagged, inning-and-batter-matching candidate
with no `play_id` yields no match. -/
theorem matcher_requires_uuid_witness :
    bestMatchUuid tgtA [cD] = none :=
  (matcher_requires_uuid tgtA [cD]).2 (by decide)

/-- Witness for the amended C1 at a concrete surviving candidate. -/
theorem matcher_filter_and_scores_witness :
    matchScore tgtA cA2 =
      (if cA2.pitchCall == "hit_into_play" || cA2.call == "X" then 1000 else 0)
      + (if strIn (lowerStr tgtA.event) (lowerStr cA2.des)
            || strIn (stripSpaces (lowerStr tgtA.event)) (stripSpaces (lowerStr cA2.des))
          then 100 else 0)
      + (if strIn (lowerStr tgtA.event) (lowerStr cA2.events)
            || strIn (lowerStr cA2.events) (lowerStr tgtA.event)
          then 50 else 0)
      + 25 :=
  ((matcher_filter_and_scores tgtA [cA2]).2 cA2 (by decide)).2

/-! ### Transcoder: `download_and_convert_to_gif` (lines 229-286)

The filesystem is an association list from path to file size; the external
world (HTTP download outcome, the two ffmpeg exits, the produced file sizes,
and `int(time.time())`) is an explicit environment record. -/

/-- Filesystem: existing paths with their sizes. -/
abbrev FS := List (String × Nat)

def lookupFS : FS → String → Option Nat
  | [], _ => none
  | (k', v) :: r, k => if k' = k then some v else lookupFS r k

/-- Delete a path (`Path.unlink`); deleting a missing path is a no-op here,
matching the places the source uses `missing_ok=True` or has just created the
file. -/
def eraseFS (fs : FS) (k : String) : FS :=
  fs.filter (fun p => p.1 != k)

/-- Create/overwrite a path with a file of the given size. -/
def writeFS (fs : FS) (k : String) (v : Nat) : FS :=
  (k, v) :: eraseFS fs k

/-- External-world data for one invocation of `download_and_convert_to_gif`:
`now` is `int(time.time())` at entry; `downloadOk` is whether the HTTP
download succeeds (`raise_for_status` does not raise); `paletteOk`/`encodeOk`
are whether the two ffmpeg invocations exit 0 (`subprocess.run(check=True)`
raises otherwise); the sizes are those of the files the successful steps
produce. -/
structure TranscodeEnv where
  now : Nat
  downloadOk : Bool
  videoSize : Nat
  paletteOk : Bool
  paletteSize : Nat
  encodeOk : Bool
  gifSize : Nat
deriving DecidableEq

/-- `temp_video_{int(time.time())}.webm`: the raw-clip scratch path. -/
def tempVideoName (e : TranscodeEnv) : String :=
  "temp_video_" ++ toString e.now ++ ".webm"

/-- `palette.png`: the palette scratch path, a single fixed name shared by
every invocation. -/
def paletteName : String := "palette.png"

/-- Twitter's GIF limit used by the source: `15 * 1024 * 1024`. -/
def maxGifBytes : Nat := 15 * 1024 * 1024

/-- `download_and_convert_to_gif(video_url, output_path)`: returns the boolean
result together with the final filesystem.  Control flow of the source:
any exception (failed download, non-zero ffmpeg exit) is caught by the
`except` clauses and turns into `return False`; the two scratch deletions at
lines 270-271 run only after both ffmpeg invocations succeeded; the size check
at line 274 returns `False` for an oversized GIF without deleting it. -/
def downloadAndConvertToGif (e : TranscodeEnv) (outputPath : String)
    (fs : FS) : Bool × FS :=
  if !e.downloadOk then
    (false, fs)
  else
    let fs1 := writeFS fs (tempVideoName e) e.videoSize
    if !e.paletteOk then
      (false, fs1)
    else
      let fs2 := writeFS fs1 paletteName e.paletteSize
      if !e.encodeOk then
        (false, fs2)
      else
        let fs3 := writeFS fs2 outputPath e.gifSize
        let fs4 := eraseFS fs3 (tempVideoName e)
        let fs5 := eraseFS fs4 paletteName
        if maxGifBytes < e.gifSize then
          (false, fs5)
        else
          (true, fs5)

lemma lookupFS_eraseFS_self (fs : FS) (k : String) :
    lookupFS (eraseFS fs k) k = none := by
  induction fs with
  | nil => rfl
  | cons p r ih =>
    simp only [eraseFS, List.filter_cons]
    by_cases h : p.1 = k
    · have : (p.1 != k) = false := by simp [h]
      rw [this, if_neg (by simp)]
      exact ih
    · have : (p.1 != k) = true := by simp [h]
      rw [this, if_pos rfl]
      show (if p.1 = k then some p.2 else lookupFS (eraseFS r k) k) = none
      rw [if_neg h]
      exact ih

lemma lookupFS_eraseFS_of_ne (fs : FS) {k k' : String} (h : k ≠ k') :
    lookupFS (eraseFS fs k') k = lookupFS fs k := by
  induction fs with
  | nil => rfl
  | cons p r ih =>
    simp only [eraseFS, List.filter_cons]
    by_cases hp : p.1 = k'
    · have : (p.1 != k') = false := by simp [hp]
      rw [this, if_neg (by simp)]
      show lookupFS (eraseFS r k') k = _
      rw [ih]
      show _ = (if p.1 = k then some p.2 else lookupFS r k)
      rw [if_neg (by rw [hp]; exact fun hh => h hh.symm)]
    · have : (p.1 != k') = true := by simp [hp]
      rw [this, if_pos rfl]
      show (if p.1 = k then some p.2 else lookupFS (eraseFS r k') k) = _
      by_cases hk : p.1 = k
      · rw [if_pos hk]
        show _ = (if p.1 = k then some p.2 else lookupFS r k)
        rw [if_pos hk]
      · rw [if_neg hk, ih]
        show _ = (if p.1 = k then some p.2 else lookupFS r k)
        rw [if_neg hk]

lemma lookupFS_writeFS_self (fs : FS) (k : String) (v : Nat) :
    lookupFS (writeFS fs k v) k = some v := by
  show (if k = k then some v else _) = some v
  rw [if_pos rfl]

lemma lookupFS_writeFS_of_ne (fs : FS) {k k' : String} (v : Nat)
    (h : k ≠ k') :
    lookupFS (writeFS fs k' v) k = lookupFS fs k := by
  show (if k' = k then some v else lookupFS (eraseFS fs k') k) = _
  rw [if_neg (fun hh => h hh.symm), lookupFS_eraseFS_of_ne fs h]

lemma lookupFS_eraseFS_none (fs : FS) {k : String} (k' : String)
    (h : lookupFS fs k = none) :
    lookupFS (eraseFS fs k') k = none := by
  by_cases hk : k = k'
  · subst hk; exact lookupFS_eraseFS_self fs k
  · rw [lookupFS_eraseFS_of_ne fs hk]; exact h

/-! ### Claim C3 -/

/-- Environment of a run whose encode succeeds but produces a GIF one byte
over the 15 MB limit. -/
def envOversize : TranscodeEnv := ⟨7, true, 100, true, 10, true, 15728641⟩

/-- C3 counterexample: on an oversized encode the source returns `False`
(so it never reports success), but it does **not** delete the artifact — the
oversized output file is still on disk after the call, contradicting the
claimed `delete it and leave no residual output file` behavior. -/
theorem transcode_oversize_counterexample :
    (downloadAndConvertToGif envOversize "alonso.gif" []).1 = false ∧
      lookupFS (downloadAndConvertToGif envOversize "alonso.gif" []).2
        "alonso.gif" = some 15728641 ∧
      maxGifBytes < 15728641 := by
  refine ⟨by decide, by decide, by decide⟩

/-- C3 (amended): the transcode never reports success with an output file
larger than 15 MB — on success the output file exists with the encoded size,
which is at most `maxGifBytes`; but an oversized encode merely reports
failure, leaving the oversized artifact on disk (no deletion). -/
theorem transcode_size_contract (e : TranscodeEnv) (outputPath : String)
    (fs : FS)
    (h1 : outputPath ≠ tempVideoName e) (h2 : outputPath ≠ paletteName)
    (hs : (downloadAndConvertToGif e outputPath fs).1 = true) :
    lookupFS (downloadAndConvertToGif e outputPath fs).2 outputPath
        = some e.gifSize ∧
      e.gifSize ≤ maxGifBytes := by
  rcases e with ⟨now, dOk, vSz, pOk, pSz, eOk, gSz⟩
  cases dOk with
  | false => exact absurd hs (by simp [downloadAndConvertToGif])
  | true =>
    cases pOk with
    | false => exact absurd hs (by simp [downloadAndConvertToGif])
    | true =>
      cases eOk with
      | false => exact absurd hs (by simp [downloadAndConvertToGif])
      | true =>
        by_cases hsz : maxGifBytes < gSz
        · exact absurd hs (by simp [downloadAndConvertToGif, hsz])
        · refine ⟨?_, Nat.le_of_not_lt hsz⟩
          show lookupFS (downloadAndConvertToGif _ _ fs).2 outputPath = _
          simp only [downloadAndConvertToGif, Bool.not_true, Bool.false_eq_true,
            if_false, if_neg hsz]
          rw [lookupFS_eraseFS_of_ne _ h2, lookupFS_eraseFS_of_ne _ h1,
            lookupFS_writeFS_self]

/-- Witness for the amended C3 on a concrete in-budget encode. -/
theorem transcode_size_contract_witness :
    lookupFS (downloadAndConvertToGif ⟨7, true, 100, true, 10, true, 5000⟩
        "alonso.gif" []).2 "alonso.gif" = some 5000 ∧
      (5000 : Nat) ≤ maxGifBytes :=
  transcode_size_contract ⟨7, true, 100, true, 10, true, 5000⟩ "alonso.gif" []
    (by decide) (by decide) (by decide)

/-! ### Claim C4 -/

/-- Environment of a run whose palette-generation ffmpeg call fails. -/
def envToolFail : TranscodeEnv := ⟨5, true, 100, false, 0, false, 0⟩

/-- A second invocation starting in the same wall-clock second as
`envToolFail` but otherwise different. -/
def envSameSecond : TranscodeEnv := ⟨5, true, 999, true, 10, true, 5000⟩

/-- C4 counterexample: when the palette ffmpeg call fails, the invocation
returns `False` with the downloaded raw clip still on disk — the scratch
input is not deleted on this exit path; moreover scratch filenames are not
private to an invocation: two distinct invocations in the same second share
the raw-clip name, and every invocation shares the one fixed palette name. -/
theorem transcode_scratch_counterexample :
    ((downloadAndConvertToGif envToolFail "alonso.gif" []).1 = false ∧
      lookupFS (downloadAndConvertToGif envToolFail "alonso.gif" []).2
        (tempVideoName envToolFail) = some 100) ∧
      (envToolFail ≠ envSameSecond ∧
        tempVideoName envToolFail = tempVideoName envSameSecond) := by
  exact ⟨⟨by decide, by decide⟩, by decide, by decide⟩

/-- C4 (amended): the scratch inputs (raw clip and palette) are deleted only
on the exit paths reached after both ffmpeg invocations succeed (both the
in-budget and the oversize exits); on those paths neither scratch file
remains.  On the failure exits before that point the scratch files written so
far are left behind, and scratch names are shared across invocations (fixed
palette name, per-second video name). -/
theorem transcode_scratch_cleanup (e : TranscodeEnv) (outputPath : String)
    (fs : FS) (hd : e.downloadOk = true) (hp : e.paletteOk = true)
    (he : e.encodeOk = true) :
    lookupFS (downloadAndConvertToGif e outputPath fs).2 (tempVideoName e)
        = none ∧
      lookupFS (downloadAndConvertToGif e outputPath fs).2 paletteName
        = none := by
  rcases e with ⟨now, dOk, vSz, pOk, pSz, eOk, gSz⟩
  cases hd
  cases hp
  cases he
  simp only [downloadAndConvertToGif, Bool.not_true, Bool.false_eq_true,
    if_false]
  constructor
  · by_cases hsz : maxGifBytes < gSz
    · rw [if_pos hsz]
      exact lookupFS_eraseFS_none _ _ (lookupFS_eraseFS_self _ _)
    · rw [if_neg hsz]
      exact lookupFS_eraseFS_none _ _ (lookupFS_eraseFS_self _ _)
  · by_cases hsz : maxGifBytes < gSz
    · rw [if_pos hsz]
      exact lookupFS_eraseFS_self _ _
    · rw [if_neg hsz]
      exact lookupFS_eraseFS_self _ _

/-- Witness for the amended C4 on a concrete fully-successful run. -/
theorem transcode_scratch_cleanup_witness :
    lookupFS (downloadAndConvertToGif ⟨7, true, 100, true, 10, true, 5000⟩
        "alonso.gif" []).2
        (tempVideoName ⟨7, true, 100, true, 10, true, 5000⟩) = none ∧
      lookupFS (downloadAndConvertToGif ⟨7, true, 100, true, 10, true, 5000⟩
        "alonso.gif" []).2 paletteName = none :=
  transcode_scratch_cleanup ⟨7, true, 100, true, 10, true, 5000⟩
    "alonso.gif" [] rfl rfl rfl

/-! ### Follow-up scheduler: `process_gif_queue` (lines 725-810)

One queue item of `tweet_gif_queue`.  The source adds the `attempts` /
`last_attempt` keys on the first scan of an item; here every job carries them
from creation (`post_tweet_with_gif_followup` enqueues items without them and
the scan initializes them to `0` / `None`, which is observationally the same).
`atBatId` records which detected at-bat created the job (in the source this is
determined by the enqueued `play_data`); times are seconds, with one `now` per
scan of an item (the source calls `datetime.now()` a few lines apart within
one item's scan). -/

structure Job where
  tweetId : String
  atBatId : String
  timestamp : Nat
  attempts : Nat
  lastAttempt : Option Nat
deriving DecidableEq

/-- Outcome of `create_gif_quote_tweet` for one attempt: returned `True`,
returned `False`, or raised an exception. -/
inductive AttemptOutcome
  | success
  | failure
  | error
deriving DecidableEq

/-- Why a job left the queue. -/
inductive RemovalReason
  | expired
  | succeeded
  | abandoned
deriving DecidableEq

/-- Result of scanning one queue item: removed from the queue, or kept with
(possibly updated) state. -/
inductive StepResult
  | removed (r : RemovalReason)
  | kept (j : Job)
deriving DecidableEq

/-- The retry wait for a job with `n ≥ 1` prior attempts (line 759):
`min(60 * 2 ** (n - 1), 600)`. -/
def backoff (n : Nat) : Nat :=
  min (60 * 2 ^ (n - 1)) 600

/-- Lines 772-798: increment `attempts`, set `last_attempt = now`, run
`create_gif_quote_tweet`; `True` removes the job as completed; `False` or an
exception removes it once `attempts >= 10`, otherwise leaves it queued. -/
def attemptJob (now : Nat) (o : AttemptOutcome) (j : Job) : StepResult :=
  let j' : Job := { j with attempts := j.attempts + 1, lastAttempt := some now }
  match o with
  | .success => .removed .succeeded
  | .failure => if 10 ≤ j'.attempts then .removed .abandoned else .kept j'
  | .error => if 10 ≤ j'.attempts then .removed .abandoned else .kept j'

/-- Lines 746-798, the scan of a single queue item: drop it when strictly
more than 1800 seconds old; otherwise attempt it only when its wait gate has
passed (30 s from creation for a never-attempted job, `backoff(attempts)`
since `last_attempt` otherwise). -/
def scanStep (now : Nat) (o : AttemptOutcome) (j : Job) : StepResult :=
  if 1800 < now - j.timestamp then
    .removed .expired
  else
    let wait := if j.attempts == 0 then 30 else backoff j.attempts
    match j.lastAttempt with
    | some la => if now - la < wait then .kept j else attemptJob now o j
    | none => if now - j.timestamp < 30 then .kept j else attemptJob now o j

/-- One scan cycle over the queue, with an oracle giving the attempt outcome
at each position; the source collects `items_to_remove` and pops them in
reverse, which keeps exactly the non-removed items in order. -/
def scanQueueFrom (now : Nat) (outs : Nat → AttemptOutcome) :
    Nat → List Job → List Job
  | _, [] => []
  | i, j :: rest =>
    match scanStep now (outs i) j with
    | .removed _ => scanQueueFrom now outs (i + 1) rest
    | .kept j' => j' :: scanQueueFrom now outs (i + 1) rest

/-- One scan cycle over the whole queue. -/
def scanQueue (now : Nat) (outs : Nat → AttemptOutcome) (q : List Job) :
    List Job :=
  scanQueueFrom now outs 0 q

lemma scanStep_some (now : Nat) (o : AttemptOutcome) (tid abid : String)
    (ts att la : Nat) :
    scanStep now o ⟨tid, abid, ts, att, some la⟩ =
      if 1800 < now - ts then .removed .expired
      else if now - la < (if att == 0 then 30 else backoff att)
        then .kept ⟨tid, abid, ts, att, some la⟩
        else attemptJob now o ⟨tid, abid, ts, att, some la⟩ := rfl

lemma scanStep_none (now : Nat) (o : AttemptOutcome) (tid abid : String)
    (ts att : Nat) :
    scanStep now o ⟨tid, abid, ts, att, none⟩ =
      if 1800 < now - ts then .removed .expired
      else if now - ts < 30 then .kept ⟨tid, abid, ts, att, none⟩
        else attemptJob now o ⟨tid, abid, ts, att, none⟩ := rfl

/-! ### Claim C5 -/

/-- A job 1800 seconds old with 3 attempts, last attempted 100 s ago. -/
def jAt1800 : Job := ⟨"t1", "ab1", 0, 3, some 1700⟩

/-- A job with 10 attempts, only 600 seconds old, whose backoff has elapsed. -/
def jTenAttempts : Job := ⟨"t2", "ab2", 0, 10, some 0⟩

/-- C5 counterexample: (i) at an elapsed age of exactly 1800 s the source does
**not** expire a job (the check is strict `> 1800`), it leaves it queued —
the claim says `attempts=3` at elapsed exactly 1800 s expires; (ii) a job
with `attempts = 10` is not pre-emptively abandoned at scan time: once its
backoff has elapsed it is attempted an eleventh time and can even succeed. -/
theorem scheduler_expiry_counterexample :
    scanStep 1800 .failure jAt1800 = .kept jAt1800 ∧
      scanStep 600 .success jTenAttempts = .removed .succeeded := by
  exact ⟨by decide, by decide⟩

/-- C5 (amended): the age rule fires first and unconditionally, but only for
age strictly greater than 1800 s: any scan of a job with
`now − creation > 1800` removes it as expired regardless of attempt count or
attempt outcome; and abandonment is not a scan-entry rule — it happens only
when an attempt is actually made (the wait gate having passed) and fails or
errors with the incremented attempt count reaching 10. -/
theorem scheduler_expiry_rules (now : Nat) (o : AttemptOutcome) (j : Job) :
    (1800 < now - j.timestamp → scanStep now o j = .removed .expired) ∧
    (now - j.timestamp ≤ 1800 → ∀ la, j.lastAttempt = some la →
      (if j.attempts == 0 then 30 else backoff j.attempts) ≤ now - la →
      (o = .failure ∨ o = .error) → 9 ≤ j.attempts →
      scanStep now o j = .removed .abandoned) := by
  constructor
  · intro h
    rw [scanStep, if_pos h]
  · intro hage la hla hwait ho hatt
    rcases j with ⟨tid, abid, ts, att, last⟩
    simp only at hla hwait hage hatt
    subst hla
    rw [scanStep_some, if_neg (Nat.not_lt.mpr hage),
      if_neg (Nat.not_lt.mpr hwait)]
    have h10 : 10 ≤ att + 1 := Nat.succ_le_succ hatt
    rcases ho with ho | ho
    · rw [ho]
      show (if 10 ≤ att + 1 then StepResult.removed .abandoned else _) = _
      rw [if_pos h10]
    · rw [ho]
      show (if 10 ≤ att + 1 then StepResult.removed .abandoned else _) = _
      rw [if_pos h10]

/-- Witness for the amended C5: a 1801-second-old job expires, and an
eligible failed job at 9 prior attempts is abandoned. -/
theorem scheduler_expiry_rules_witness :
    scanStep 1801 .failure ⟨"t", "ab", 0, 3, some 1700⟩
        = .removed .expired ∧
      scanStep 700 .failure ⟨"t", "ab", 0, 9, some 0⟩
        = .removed .abandoned :=
  ⟨(scheduler_expiry_rules 1801 .failure ⟨"t", "ab", 0, 3, some 1700⟩).1
      (by decide),
    (scheduler_expiry_rules 700 .failure ⟨"t", "ab", 0, 9, some 0⟩).2
      (by decide) 0 rfl (by decide) (Or.inl rfl) (by decide)⟩

/-! ### Claim C6 -/

/-- C6: the retry wait for `n ≥ 1` prior attempts is
`min(60·2^(n−1), 600)` — concretely `60, 120, 240, 480, 600, 600, …`,
non-decreasing and capped at 600 — and an already-attempted, unexpired job is
left untouched by a scan exactly when `now − lastAttempt` is still below that
wait (it is attempted once the elapsed time reaches the wait). -/
theorem scheduler_backoff :
    (∀ n : Nat, 1 ≤ n → backoff n = min (60 * 2 ^ (n - 1)) 600) ∧
    (backoff 1 = 60 ∧ backoff 2 = 120 ∧ backoff 3 = 240 ∧
      backoff 4 = 480 ∧ backoff 5 = 600 ∧ backoff 6 = 600) ∧
    (∀ n : Nat, backoff n ≤ backoff (n + 1)) ∧
    (∀ n : Nat, backoff n ≤ 600) ∧
    (∀ (now : Nat) (o : AttemptOutcome) (j : Job) (la : Nat),
      j.lastAttempt = some la → 1 ≤ j.attempts → now - j.timestamp ≤ 1800 →
      (scanStep now o j = .kept j ↔ now - la < backoff j.attempts)) := by
  refine ⟨fun n _ => rfl, by decide, ?_, fun n => Nat.min_le_right _ _, ?_⟩
  · intro n
    apply min_le_min _ (Nat.le_refl 600)
    apply Nat.mul_le_mul_left
    apply Nat.pow_le_pow_right (by decide)
    omega
  · intro now o j la hla hatt hage
    rcases j with ⟨tid, abid, ts, att, last⟩
    simp only at hla hatt hage
    subst hla
    have hz : (att == 0) = false := by
      cases h : att with
      | zero => omega
      | succ k => rfl
    rw [scanStep_some, if_neg (Nat.not_lt.mpr hage), hz]
    show (if now - la < backoff att then StepResult.kept ⟨tid, abid, ts, att, some la⟩
      else attemptJob now o ⟨tid, abid, ts, att, some la⟩)
        = StepResult.kept ⟨tid, abid, ts, att, some la⟩ ↔ _
    by_cases hw : now - la < backoff att
    · rw [if_pos hw]
      exact ⟨fun _ => hw, fun _ => rfl⟩
    · rw [if_neg hw]
      refine ⟨fun hc => absurd hc ?_, fun hc => absurd hc hw⟩
      cases o with
      | success => simp [attemptJob]
      | failure =>
        simp only [attemptJob]
        by_cases h10 : 10 ≤ att + 1
        · rw [if_pos h10]
          simp
        · rw [if_neg h10]
          intro hk
          have hinj := StepResult.kept.inj hk
          have : att + 1 = att := congrArg Job.attempts hinj
          omega
      | error =>
        simp only [attemptJob]
        by_cases h10 : 10 ≤ att + 1
        · rw [if_pos h10]
          simp
        · rw [if_neg h10]
          intro hk
          have hinj := StepResult.kept.inj hk
          have : att + 1 = att := congrArg Job.attempts hinj
          omega

/-- Witness for C6: a job with 2 prior attempts, last attempted 119 s ago, is
left untouched (its wait is 120 s). -/
theorem scheduler_backoff_witness :
    scanStep 1119 .failure ⟨"t", "ab", 0, 2, some 1000⟩
        = .kept ⟨"t", "ab", 0, 2, some 1000⟩ ↔ (1119 - 1000 : Nat) < backoff 2 :=
  scheduler_backoff.2.2.2.2 1119 .failure ⟨"t", "ab", 0, 2, some 1000⟩ 1000
    rfl (by decide) (by decide)

/-! ### Per-step facts shared by the remaining scheduler claims -/

lemma attemptJob_kept {now : Nat} {o : AttemptOutcome} {j j' : Job}
    (h : attemptJob now o j = .kept j') :
    j' = { j with attempts := j.attempts + 1, lastAttempt := some now } ∧
      j'.attempts ≤ 9 := by
  cases o with
  | success => exact absurd h (by simp [attemptJob])
  | failure =>
    simp only [attemptJob] at h
    by_cases h10 : 10 ≤ j.attempts + 1
    · rw [if_pos h10] at h
      exact absurd h (by simp)
    · rw [if_neg h10] at h
      have hj := StepResult.kept.inj h
      refine ⟨hj.symm, ?_⟩
      rw [← hj]
      show j.attempts + 1 ≤ 9
      omega
  | error =>
    simp only [attemptJob] at h
    by_cases h10 : 10 ≤ j.attempts + 1
    · rw [if_pos h10] at h
      exact absurd h (by simp)
    · rw [if_neg h10] at h
      have hj := StepResult.kept.inj h
      refine ⟨hj.symm, ?_⟩
      rw [← hj]
      show j.attempts + 1 ≤ 9
      omega

/-- Anatomy of a job kept in the queue by one scan: it is at most 1800 s old
at the scan's time, its creation time and at-bat identity are unchanged, and
its attempt count either was untouched or was incremented by a failed attempt
to at most 9. -/
lemma scanStep_kept {now : Nat} {o : AttemptOutcome} {j j' : Job}
    (h : scanStep now o j = .kept j') :
    now - j'.timestamp ≤ 1800 ∧
      (j'.attempts = j.attempts ∨
        (j'.attempts = j.attempts + 1 ∧ j'.attempts ≤ 9)) ∧
      j'.atBatId = j.atBatId ∧ j'.timestamp = j.timestamp := by
  rcases j with ⟨tid, abid, ts, att, last⟩
  cases last with
  | some la =>
    rw [scanStep_some] at h
    by_cases hex : 1800 < now - ts
    · rw [if_pos hex] at h
      exact absurd h (by simp)
    · rw [if_neg hex] at h
      by_cases hw : now - la < (if att == 0 then 30 else backoff att)
      · rw [if_pos hw] at h
        have hj := StepResult.kept.inj h
        subst hj
        exact ⟨Nat.le_of_not_lt hex, Or.inl rfl, rfl, rfl⟩
      · rw [if_neg hw] at h
        obtain ⟨hj, h9⟩ := attemptJob_kept h
        subst hj
        exact ⟨Nat.le_of_not_lt hex, Or.inr ⟨rfl, h9⟩, rfl, rfl⟩
  | none =>
    rw [scanStep_none] at h
    by_cases hex : 1800 < now - ts
    · rw [if_pos hex] at h
      exact absurd h (by simp)
    · rw [if_neg hex] at h
      by_cases hw : now - ts < 30
      · rw [if_pos hw] at h
        have hj := StepResult.kept.inj h
        subst hj
        exact ⟨Nat.le_of_not_lt hex, Or.inl rfl, rfl, rfl⟩
      · rw [if_neg hw] at h
        obtain ⟨hj, h9⟩ := attemptJob_kept h
        subst hj
        exact ⟨Nat.le_of_not_lt hex, Or.inr ⟨rfl, h9⟩, rfl, rfl⟩

lemma scanQueueFrom_ids {now : Nat} {outs : Nat → AttemptOutcome} :
    ∀ {i : Nat} {q : List Job} {j' : Job},
      j' ∈ scanQueueFrom now outs i q → ∃ j ∈ q, j'.atBatId = j.atBatId := by
  intro i q
  induction q generalizing i with
  | nil => intro j' h; exact absurd h (by simp [scanQueueFrom])
  | cons j t ih =>
    intro j' h
    simp only [scanQueueFrom] at h
    cases hstep : scanStep now (outs i) j with
    | removed r =>
      rw [hstep] at h
      obtain ⟨b, hb, hid⟩ := ih h
      exact ⟨b, by simp [hb], hid⟩
    | kept k =>
      rw [hstep] at h
      rcases List.mem_cons.mp h with hh | hh
      · subst hh
        exact ⟨j, by simp, (scanStep_kept hstep).2.2.1⟩
      · obtain ⟨b, hb, hid⟩ := ih hh
        exact ⟨b, by simp [hb], hid⟩

/-! ### Claim C8 -/

/-- C8: provided every queued job has at most 9 recorded attempts (true of
freshly enqueued jobs, and preserved by every scan), after a scan at time
`now` every job still in the queue satisfies `attempts ≤ 10` and
`now − creation ≤ 1800` — in fact `attempts ≤ 9`, so the stated bound also
holds at the next scan's attempt increment. -/
theorem scheduler_queue_invariants (now : Nat) (outs : Nat → AttemptOutcome)
    (i : Nat) (q : List Job) (h : ∀ j ∈ q, j.attempts ≤ 9) :
    (∀ j' ∈ scanQueueFrom now outs i q,
      j'.attempts ≤ 10 ∧ now - j'.timestamp ≤ 1800) ∧
    (∀ j' ∈ scanQueueFrom now outs i q, j'.attempts ≤ 9) := by
  have key : ∀ j' ∈ scanQueueFrom now outs i q,
      j'.attempts ≤ 9 ∧ now - j'.timestamp ≤ 1800 := by
    induction q generalizing i with
    | nil => intro j' hj'; exact absurd hj' (by simp [scanQueueFrom])
    | cons j t ih =>
      intro j' hj'
      simp only [scanQueueFrom] at hj'
      cases hstep : scanStep now (outs i) j with
      | removed r =>
        rw [hstep] at hj'
        exact ih (i + 1) (fun b hb => h b (by simp [hb])) j' hj'
      | kept k =>
        rw [hstep] at hj'
        rcases List.mem_cons.mp hj' with hh | hh
        · subst hh
          obtain ⟨hage, hatts, _, _⟩ := scanStep_kept hstep
          refine ⟨?_, hage⟩
          rcases hatts with hh | hh
          · rw [hh]
            exact h j (by simp)
          · exact hh.2
        · exact ih (i + 1) (fun b hb => h b (by simp [hb])) j' hh
  exact ⟨fun j' hj' => ⟨Nat.le_succ_of_le (key j' hj').1, (key j' hj').2⟩,
    fun j' hj' => (key j' hj').1⟩

/-- Witness for C8 on a one-job queue whose backoff gate keeps the job. -/
theorem scheduler_queue_invariants_witness :
    ((⟨"t", "ab", 0, 2, some 1000⟩ : Job).attempts ≤ 10 ∧
      1100 - (⟨"t", "ab", 0, 2, some 1000⟩ : Job).timestamp ≤ 1800) :=
  (scheduler_queue_invariants 1100 (fun _ => .failure) 0
      [⟨"t", "ab", 0, 2, some 1000⟩] (by decide)).1
    ⟨"t", "ab", 0, 2, some 1000⟩ (by decide)

/-! ### Claim C9 -/

/-- C9: an exception from `create_gif_quote_tweet` is handled exactly like a
returned `False` — the attempt is recorded against that job alone — and a scan
cycle processes each queued job independently: the cycle's result on a
concatenation is the concatenation of the per-segment results (with outcome
positions shifted), so no job's outcome can keep a later job from being
processed in the same cycle. -/
theorem scheduler_error_isolation :
    (∀ (now : Nat) (j : Job),
      scanStep now .error j = scanStep now .failure j) ∧
    (∀ (now : Nat) (outs : Nat → AttemptOutcome) (i : Nat) (q1 q2 : List Job),
      scanQueueFrom now outs i (q1 ++ q2) =
        scanQueueFrom now outs i q1
          ++ scanQueueFrom now outs (i + q1.length) q2) := by
  constructor
  · intro now j
    rfl
  · intro now outs i q1 q2
    induction q1 generalizing i with
    | nil => simp [scanQueueFrom]
    | cons j t ih =>
      simp only [List.cons_append, scanQueueFrom, List.length_cons]
      have happ : t.append q2 = t ++ q2 := rfl
      have harith : i + 1 + t.length = i + (t.length + 1) := by omega
      cases hstep : scanStep now (outs i) j with
      | removed r =>
        simp only [hstep]
        rw [happ, ih (i + 1), harith]
      | kept j' =>
        simp only [hstep]
        rw [happ, ih (i + 1), harith, List.cons_append]

/-! ### Detection and enqueue: `check_alonso_at_bats` +
`post_tweet_with_gif_followup`

The detection-side state: the persisted `processed_at_bats` set and the shared
`tweet_gif_queue`. -/

structure TrackerState where
  processed : List String
  queue : List Job
deriving DecidableEq

/-- A queue item as appended by `post_tweet_with_gif_followup` (timestamp
`datetime.now()`, no attempts yet). -/
def freshJob (now : Nat) (tid abid : String) : Job :=
  ⟨tid, abid, now, 0, none⟩

/-- One at-bat's handling inside `check_alonso_at_bats` (lines 897-949):
skip entirely when the at-bat id is already in `processed_at_bats`; otherwise
post (`postOk` = the tweet call succeeded), enqueue the follow-up job when the
post succeeded and GIF integration is available, and add the id to the
processed set (the add happens even when posting failed — the exception is
swallowed inside `post_tweet_with_gif_followup`). -/
def detectStep (gifAvailable postOk : Bool) (now : Nat) (tid : String)
    (st : TrackerState) (abid : String) : TrackerState :=
  if abid ∈ st.processed then st
  else
    { processed := abid :: st.processed
      queue :=
        if postOk && gifAvailable then st.queue ++ [freshJob now tid abid]
        else st.queue }

/-- The at-most-one-job-per-at-bat invariant: every queued job's at-bat id is
recorded in the processed set, and no two queued jobs share an at-bat id. -/
def uniqueJobs (st : TrackerState) : Prop :=
  (∀ j ∈ st.queue, j.atBatId ∈ st.processed) ∧
    st.queue.Pairwise (fun a b => a.atBatId ≠ b.atBatId)

lemma scanQueueFrom_pairwise {now : Nat} {outs : Nat → AttemptOutcome} :
    ∀ {i : Nat} {q : List Job},
      q.Pairwise (fun a b => a.atBatId ≠ b.atBatId) →
      (scanQueueFrom now outs i q).Pairwise
        (fun a b => a.atBatId ≠ b.atBatId) := by
  intro i q
  induction q generalizing i with
  | nil => intro _; simp [scanQueueFrom]
  | cons j t ih =>
    intro hpw
    rw [List.pairwise_cons] at hpw
    simp only [scanQueueFrom]
    cases hstep : scanStep now (outs i) j with
    | removed r => exact ih hpw.2
    | kept k =>
      rw [List.pairwise_cons]
      refine ⟨?_, ih hpw.2⟩
      intro b hb
      obtain ⟨b0, hb0, hbid⟩ := scanQueueFrom_ids hb
      rw [hbid, (scanStep_kept hstep).2.2.1]
      exact hpw.1 b0 hb0

lemma pairwise_filter_len (q : List Job)
    (hp : q.Pairwise (fun a b => a.atBatId ≠ b.atBatId)) (x : String) :
    (q.filter (fun j => j.atBatId == x)).length ≤ 1 := by
  induction q with
  | nil => simp
  | cons j t ih =>
    rw [List.pairwise_cons] at hp
    by_cases hj : (j.atBatId == x) = true
    · have hx : j.atBatId = x := by simpa using hj
      have hrest : t.filter (fun b => b.atBatId == x) = [] := by
        rw [List.filter_eq_nil_iff]
        intro b hb hbx
        have : b.atBatId = x := by simpa using hbx
        exact hp.1 b hb (by rw [hx, this])
      rw [List.filter_cons, if_pos hj, hrest]
      simp
    · rw [List.filter_cons, if_neg hj]
      exact ih hp.2

/-! ### Claim C7 -/

/-- C7: once an at-bat id is in the processed set, detecting the same at-bat
again is a no-op (no post, no queue entry); detection preserves the
at-most-one-job-per-at-bat invariant, and so does every scheduler scan (jobs
are only removed or updated in place, never duplicated); under the invariant
the queue holds at most one job per at-bat identifier. -/
theorem enqueue_idempotent (g p : Bool) (now : Nat) (tid abid : String)
    (st : TrackerState) :
    (abid ∈ st.processed → detectStep g p now tid st abid = st) ∧
    (uniqueJobs st → uniqueJobs (detectStep g p now tid st abid)) ∧
    (∀ (outs : Nat → AttemptOutcome) (i : Nat), uniqueJobs st →
      uniqueJobs ⟨st.processed, scanQueueFrom now outs i st.queue⟩) ∧
    (uniqueJobs st → ∀ x : String,
      (st.queue.filter (fun j => j.atBatId == x)).length ≤ 1) := by
  refine ⟨?_, ?_, ?_, ?_⟩
  · intro hmem
    rw [detectStep, if_pos hmem]
  · intro ⟨hall, hpw⟩
    by_cases hmem : abid ∈ st.processed
    · rw [detectStep, if_pos hmem]
      exact ⟨hall, hpw⟩
    · rw [detectStep, if_neg hmem]
      by_cases hpost : (p && g) = true
      · rw [if_pos hpost]
        constructor
        · intro j hj
          rcases List.mem_append.mp hj with hh | hh
          · exact List.mem_cons_of_mem _ (hall j hh)
          · have : j = freshJob now tid abid := by simpa using hh
            rw [this]
            exact List.mem_cons_self _ _
        · rw [List.pairwise_append]
          refine ⟨hpw, by simp, ?_⟩
          intro a ha b hb
          have hb' : b = freshJob now tid abid := by simpa using hb
          rw [hb']
          intro hcontra
          have hfa : a.atBatId = abid := hcontra
          exact hmem (hfa ▸ hall a ha)
      · rw [if_neg hpost]
        exact ⟨fun j hj => List.mem_cons_of_mem _ (hall j hj), hpw⟩
  · intro outs i ⟨hall, hpw⟩
    constructor
    · intro j' hj'
      obtain ⟨j, hj, hid⟩ := scanQueueFrom_ids hj'
      rw [hid]
      exact hall j hj
    · exact scanQueueFrom_pairwise hpw
  · intro ⟨_, hpw⟩
    exact pairwise_filter_len st.queue hpw

/-- Witness for C7: re-detecting an already-processed at-bat id changes
nothing. -/
theorem enqueue_idempotent_witness :
    detectStep true true 5 "t" ⟨["ab1"], []⟩ "ab1" = ⟨["ab1"], []⟩ :=
  (enqueue_idempotent true true 5 "t" "ab1" ⟨["ab1"], []⟩).1 (by decide)

end Alonso
